import Mathlib

/-
Verification development for addVideosToMusic_Fitness.py, a script that
concatenates video clips and overlays a music track via an external
media tool (ffmpeg / ffprobe).

Modelling conventions:
* Python floats are modelled as rationals; every numeric constant in the
  source (0.5, 1.0, frame rates, durations) is exactly representable.
* File paths are strings, relative to the project root directory.
* The external world is modelled by explicit parameters: an ffprobe
  outcome per path, a file-existence predicate, and a success predicate
  over the constructed command; a successful encoder run is assumed to
  leave its output file on disk.
* ffmpeg/ffprobe command lines are lists of tokens; a numeric value that
  the source interpolates into an argument string is kept as a rational
  inside the token, and the fixed text around it is kept in the token
  constructor.
-/

set_option autoImplicit false

namespace VideoConcat

/-! ## Media Prober (get_media_info, get_duration) -/

/-- The dictionary built by get_media_info.  Every key of the Python dict
is an optional field here; an absent key is `none`.  In the source
`info.get(key, default)` is modelled by `Option.getD`. -/
structure MediaInfo where
  duration : Option Rat
  video_codec : Option String
  width : Option Int
  height : Option Int
  fps : Option Rat
  audio_codec : Option String
deriving DecidableEq

/-- The empty dict returned by get_media_info on any failure. -/
def emptyInfo : MediaInfo :=
  { duration := none, video_codec := none, width := none, height := none,
    fps := none, audio_codec := none }

/-- Source get_duration: `get_media_info(f).get("duration", 0.0)`. -/
def getDuration (info : MediaInfo) : Rat := info.duration.getD 0

/-- The fps read used throughout the source: `.get("fps", 0)`. -/
def getFps (info : MediaInfo) : Rat := info.fps.getD 0

/-- One entry of the ffprobe "streams" array, with the fields the source
reads, after the frame-rate evaluation has succeeded: `r_frame_rate`
holds the value of `eval(stream.get("r_frame_rate", "0/1"))` when that
evaluation returns (a missing key evaluates to `0`, modelled by
`Option.getD 0`).  The eval itself sits outside every try/except in the
source and can raise; `FFStreamRaw` below keeps the unevaluated fraction
and exposes that path. -/
structure FFStream where
  codec_type : Option String
  codec_name : Option String
  width : Option Int
  height : Option Int
  r_frame_rate : Option Rat

/-- Parsed ffprobe JSON as far as the source reads it.  `format_duration`
is the successfully parsed `format.duration` value; `none` covers both a
missing key (the default 0 is then parsed) and an unparsable string (the
`except: pass` keeps the initial 0.0), which agree on the value 0. -/
structure FFData where
  streams : List FFStream
  format_duration : Option Rat

/-- The stdout of the ffprobe subprocess as get_media_info inspects it:
empty (`not result.stdout`), not valid JSON (`json.loads` raises), or
parsed data. -/
inductive Stdout where
  | empty : Stdout
  | unparsable : Stdout
  | parsed : FFData → Stdout

/-- Outcome of the `subprocess.run` call inside get_media_info: either the
call itself raised, or it returned an exit code and stdout. -/
inductive ProbeOutcome where
  | exn : ProbeOutcome
  | ran : Int → Stdout → ProbeOutcome

/-- Body of the stream loop of get_media_info: a video stream updates the
video fields (`info.update`), an audio stream the audio codec. -/
def stream_step (info : MediaInfo) (s : FFStream) : MediaInfo :=
  if s.codec_type = some "video" then
    { info with video_codec := s.codec_name, width := s.width,
                height := s.height, fps := some (s.r_frame_rate.getD 0) }
  else if s.codec_type = some "audio" then
    { info with audio_codec := s.codec_name }
  else info

/-- The successful tail of get_media_info: start from `{"duration": 0.0}`,
fold the stream loop, then set the parsed format duration. -/
def build_info (d : FFData) : MediaInfo :=
  let init : MediaInfo :=
    { duration := some 0, video_codec := none, width := none, height := none,
      fps := none, audio_codec := none }
  let info := d.streams.foldl stream_step init
  { info with duration := some (d.format_duration.getD 0) }

/-- Source get_media_info over already-evaluated stream data: returns `{}`
when the subprocess call raises, when the exit code is nonzero, when
stdout is empty, or when stdout is not valid JSON; otherwise builds the
info dict from the parsed data.  This is the non-raising fragment of the
source function: the uncaught frame-rate eval is modelled by
`get_media_info_raw` below, and `get_media_info_raw_agrees` shows this
evaluated form is exactly what `get_media_info_raw` returns whenever no
stream raises. -/
def get_media_info : ProbeOutcome → MediaInfo
  | ProbeOutcome.exn => emptyInfo
  | ProbeOutcome.ran rc out =>
    if rc ≠ 0 then emptyInfo
    else
      match out with
      | Stdout.empty => emptyInfo
      | Stdout.unparsable => emptyInfo
      | Stdout.parsed d => build_info d

/-- The content of the r_frame_rate JSON string as the source's eval sees
it: ffprobe emits an integer fraction "num/den". -/
structure RawFrac where
  num : Int
  den : Int
deriving DecidableEq

/-- Python `eval("num/den")`: true division, and a ZeroDivisionError —
modelled as `none` — when the denominator is 0 (ffprobe emits "0/0" for
streams with undetermined frame rate). -/
def evalFrac (f : RawFrac) : Option Rat :=
  if f.den = 0 then none else some ((f.num : Rat) / (f.den : Rat))

/-- A stream entry with the frame-rate fraction still unevaluated, as the
source receives it from json.loads. -/
structure FFStreamRaw where
  codec_type : Option String
  codec_name : Option String
  width : Option Int
  height : Option Int
  r_frame_rate : Option RawFrac

/-- Parsed ffprobe JSON with unevaluated stream fractions. -/
structure FFDataRaw where
  streams : List FFStreamRaw
  format_duration : Option Rat

/-- Stdout of the ffprobe subprocess over unevaluated data. -/
inductive StdoutRaw where
  | empty : StdoutRaw
  | unparsable : StdoutRaw
  | parsed : FFDataRaw → StdoutRaw

/-- Outcome of the subprocess.run call over unevaluated data. -/
inductive ProbeOutcomeRaw where
  | exn : ProbeOutcomeRaw
  | ran : Int → StdoutRaw → ProbeOutcomeRaw

/-- The stream loop body with the eval performed where the source performs
it: for a video stream the fraction (default "0/1") is evaluated before
the dict update, and that eval sits outside every try/except, so a zero
denominator raises — `none` — and aborts get_media_info. -/
def stream_step_raw (info : MediaInfo) (s : FFStreamRaw) : Option MediaInfo :=
  if s.codec_type = some "video" then
    match evalFrac (s.r_frame_rate.getD ⟨0, 1⟩) with
    | none => none
    | some fps =>
      some { info with video_codec := s.codec_name, width := s.width,
                       height := s.height, fps := some fps }
  else if s.codec_type = some "audio" then
    some { info with audio_codec := s.codec_name }
  else some info

/-- The successful tail of get_media_info over unevaluated data; a raising
stream aborts the whole function. -/
def build_info_raw (d : FFDataRaw) : Option MediaInfo :=
  let init : MediaInfo :=
    { duration := some 0, video_codec := none, width := none, height := none,
      fps := none, audio_codec := none }
  match d.streams.foldlM stream_step_raw init with
  | none => none
  | some info => some { info with duration := some (d.format_duration.getD 0) }

/-- Source get_media_info with the raising path representable: every
guarded failure returns `{}` (`some emptyInfo`), while `none` models an
exception escaping the function — which the guards do not cover for the
frame-rate eval of the stream loop. -/
def get_media_info_raw : ProbeOutcomeRaw → Option MediaInfo
  | ProbeOutcomeRaw.exn => some emptyInfo
  | ProbeOutcomeRaw.ran rc out =>
    if rc ≠ 0 then some emptyInfo
    else
      match out with
      | StdoutRaw.empty => some emptyInfo
      | StdoutRaw.unparsable => some emptyInfo
      | StdoutRaw.parsed d => build_info_raw d

/-- The guarded probe failure cases: the subprocess call raised, the tool
exited nonzero, stdout was empty, or it was unparsable. -/
def probeFailedRaw : ProbeOutcomeRaw → Prop
  | ProbeOutcomeRaw.exn => True
  | ProbeOutcomeRaw.ran rc out =>
    rc ≠ 0 ∨ out = StdoutRaw.empty ∨ out = StdoutRaw.unparsable

/-- A raw stream that does not raise: either not a video stream, or its
fraction (default "0/1") has a nonzero denominator. -/
def rawStreamOk (s : FFStreamRaw) : Prop :=
  s.codec_type = some "video" → (s.r_frame_rate.getD ⟨0, 1⟩).den ≠ 0

/-- Evaluate the fraction of a raw stream, yielding the evaluated-layer
stream record (the fps read later defaults a failed eval to 0, which is
only reachable under `rawStreamOk` anyway). -/
def evalStreamD (s : FFStreamRaw) : FFStream :=
  { codec_type := s.codec_type, codec_name := s.codec_name,
    width := s.width, height := s.height,
    r_frame_rate := evalFrac (s.r_frame_rate.getD ⟨0, 1⟩) }

/-- A probe outcome none of whose parsed video streams raises. -/
def rawOutcomeOk : ProbeOutcomeRaw → Prop
  | ProbeOutcomeRaw.ran _ (StdoutRaw.parsed d) => ∀ s ∈ d.streams, rawStreamOk s
  | _ => True

/-- Erase a non-raising raw outcome to the evaluated layer. -/
def evalOutcomeD : ProbeOutcomeRaw → ProbeOutcome
  | ProbeOutcomeRaw.exn => ProbeOutcome.exn
  | ProbeOutcomeRaw.ran rc StdoutRaw.empty => ProbeOutcome.ran rc Stdout.empty
  | ProbeOutcomeRaw.ran rc StdoutRaw.unparsable =>
    ProbeOutcome.ran rc Stdout.unparsable
  | ProbeOutcomeRaw.ran rc (StdoutRaw.parsed d) =>
    ProbeOutcome.ran rc (Stdout.parsed
      { streams := d.streams.map evalStreamD,
        format_duration := d.format_duration })

theorem stream_step_raw_ok (info : MediaInfo) (s : FFStreamRaw)
    (h : rawStreamOk s) :
    stream_step_raw info s = some (stream_step info (evalStreamD s)) := by
  by_cases hv : s.codec_type = some "video"
  · have hd : (s.r_frame_rate.getD ⟨0, 1⟩).den ≠ 0 := h hv
    have he : evalFrac (s.r_frame_rate.getD ⟨0, 1⟩)
        = some (((s.r_frame_rate.getD ⟨0, 1⟩).num : Rat)
            / ((s.r_frame_rate.getD ⟨0, 1⟩).den : Rat)) := by
      simp [evalFrac, hd]
    simp [stream_step_raw, stream_step, evalStreamD, hv, he]
  · by_cases ha : s.codec_type = some "audio"
    · simp [stream_step_raw, stream_step, evalStreamD, hv, ha]
    · simp [stream_step_raw, stream_step, evalStreamD, hv, ha]

theorem foldlM_stream_step_raw (l : List FFStreamRaw) :
    ∀ init : MediaInfo, (∀ s ∈ l, rawStreamOk s) →
      l.foldlM stream_step_raw init
        = some (l.foldl (fun i s => stream_step i (evalStreamD s)) init) := by
  induction l with
  | nil => intro init _; rfl
  | cons s tl ih =>
    intro init hall
    have hstep := stream_step_raw_ok init s (hall s (List.mem_cons_self s tl))
    show stream_step_raw init s >>= (fun i => tl.foldlM stream_step_raw i)
        = _
    rw [hstep]
    show tl.foldlM stream_step_raw (stream_step init (evalStreamD s)) = _
    rw [ih (stream_step init (evalStreamD s))
      (fun x hx => hall x (List.mem_cons_of_mem s hx))]
    rfl

theorem build_info_raw_ok (d : FFDataRaw)
    (h : ∀ s ∈ d.streams, rawStreamOk s) :
    build_info_raw d = some (build_info
      { streams := d.streams.map evalStreamD,
        format_duration := d.format_duration }) := by
  simp only [build_info_raw, build_info]
  rw [foldlM_stream_step_raw d.streams _ h]
  simp [List.foldl_map]

/-- The evaluated-layer get_media_info is exactly the behaviour of the
source function on every outcome that does not raise. -/
theorem get_media_info_raw_agrees (o : ProbeOutcomeRaw) (h : rawOutcomeOk o) :
    get_media_info_raw o = some (get_media_info (evalOutcomeD o)) := by
  cases o with
  | exn => rfl
  | ran rc out =>
    cases out with
    | empty =>
      by_cases hrc : rc = 0 <;>
        simp [get_media_info_raw, get_media_info, evalOutcomeD, hrc]
    | unparsable =>
      by_cases hrc : rc = 0 <;>
        simp [get_media_info_raw, get_media_info, evalOutcomeD, hrc]
    | parsed d =>
      by_cases hrc : rc = 0
      · subst hrc
        simp only [get_media_info_raw, get_media_info, evalOutcomeD,
          ne_eq, not_true_eq_false, if_false]
        exact build_info_raw_ok d h
      · simp [get_media_info_raw, get_media_info, evalOutcomeD, hrc]

/-! ## Compatibility Analyzer (find_majority_frame_rate) -/

/-- The `frame_rate_counts` Python dict: an insertion-ordered association
list from frame rate to occurrence count. -/
abbrev Counts := List (Rat × Nat)

/-- One iteration of the counting loop:
`frame_rate_counts[fps] = frame_rate_counts.get(fps, 0) + 1`.  An existing
key keeps its position, a new key is appended, matching Python dict
insertion order. -/
def bumpCount : Counts → Rat → Counts
  | [], k => [(k, 1)]
  | (a, c) :: tl, k =>
    if a = k then (a, c + 1) :: tl else (a, c) :: bumpCount tl k

/-- The counting loop of find_majority_frame_rate over the probed rates. -/
def buildCounts (rates : List Rat) : Counts := rates.foldl bumpCount []

/-- The keys of the dict, in insertion order. -/
def keysOf (m : Counts) : List Rat := m.map Prod.fst

/-- `frame_rate_counts.get(k, 0)`. -/
def lookupCount : Counts → Rat → Nat
  | [], _ => 0
  | (a, c) :: tl, k => if a = k then c else lookupCount tl k

/-- Number of occurrences of a value in a list of rates. -/
def occCount : List Rat → Rat → Nat
  | [], _ => 0
  | a :: l, x => occCount l x + (if a = x then 1 else 0)

/-- Python `max(d, key=d.get)`: scan the entries in order, keeping the
first entry whose count is maximal. -/
def maxKey (first : Rat × Nat) (rest : Counts) : Rat × Nat :=
  rest.foldl (fun best p => if best.2 < p.2 then p else best) first

/-- Source find_majority_frame_rate, parametrised by the result of
`get_media_info` on each path.  Returns (is_compatible, majority). -/
def find_majority_frame_rate (info : String → MediaInfo)
    (video_files : List String) : Bool × Rat :=
  if video_files.length < 2 then
    (true,
      match video_files with
      | [] => 0
      | v :: _ => getFps (info v))
  else
    let frame_rate_counts :=
      buildCounts (video_files.map (fun v => getFps (info v)))
    match frame_rate_counts with
    | [] => (true, 0)
    | first :: rest =>
      ((first :: rest).length == 1, (maxKey first rest).1)

/-! ## Histogram lemmas -/

theorem keysOf_bumpCount (m : Counts) (k : Rat) :
    keysOf (bumpCount m k) =
      if k ∈ keysOf m then keysOf m else keysOf m ++ [k] := by
  induction m with
  | nil => simp [bumpCount, keysOf]
  | cons p tl ih =>
    obtain ⟨a, c⟩ := p
    by_cases h : a = k
    · subst h
      simp [bumpCount, keysOf]
    · simp only [bumpCount, if_neg h, keysOf, List.map_cons] at ih ⊢
      rw [ih]
      by_cases hm : k ∈ List.map Prod.fst tl
      · simp [hm, List.mem_cons]
      · simp [hm, List.mem_cons, Ne.symm h]

theorem mem_keysOf_foldl (l : List Rat) :
    ∀ (m : Counts) (k : Rat),
      k ∈ keysOf (l.foldl bumpCount m) ↔ k ∈ keysOf m ∨ k ∈ l := by
  induction l with
  | nil => intro m k; simp
  | cons a tl ih =>
    intro m k
    have step := keysOf_bumpCount m a
    rw [List.foldl_cons, ih (bumpCount m a) k]
    by_cases ha : a ∈ keysOf m
    · by_cases hk : k = a
      · subst hk
        simp [step, ha, List.mem_cons]
      · simp [step, ha, List.mem_cons, hk]
    · by_cases hk : k = a
      · subst hk
        simp [step, ha, List.mem_cons]
      · simp [step, ha, List.mem_cons, hk]

theorem mem_keysOf_buildCounts (rates : List Rat) (k : Rat) :
    k ∈ keysOf (buildCounts rates) ↔ k ∈ rates := by
  have := mem_keysOf_foldl rates [] k
  simpa [buildCounts, keysOf] using this

theorem foldl_bumpCount_all_eq (l : List Rat) :
    ∀ (r : Rat) (c : Nat), (∀ x ∈ l, x = r) →
      l.foldl bumpCount [(r, c)] = [(r, c + l.length)] := by
  induction l with
  | nil => intro r c _; simp
  | cons a tl ih =>
    intro r c hall
    have ha : a = r := hall a (List.mem_cons_self a tl)
    subst ha
    have htl : ∀ x ∈ tl, x = a := fun x hx => hall x (List.mem_cons_of_mem a hx)
    rw [List.foldl_cons]
    have : bumpCount [(a, c)] a = [(a, c + 1)] := by simp [bumpCount]
    rw [this, ih a (c + 1) htl]
    simp [List.length_cons]
    omega

theorem buildCounts_all_eq (rates : List Rat) (r : Rat)
    (hne : rates ≠ []) (hall : ∀ x ∈ rates, x = r) :
    buildCounts rates = [(r, rates.length)] := by
  cases rates with
  | nil => exact absurd rfl hne
  | cons a tl =>
    have ha : a = r := hall a (List.mem_cons_self a tl)
    subst ha
    have htl : ∀ x ∈ tl, x = a := fun x hx => hall x (List.mem_cons_of_mem a hx)
    have h0 : bumpCount [] a = [(a, 1)] := by simp [bumpCount]
    unfold buildCounts
    rw [List.foldl_cons, h0, foldl_bumpCount_all_eq tl a 1 htl]
    simp [List.length_cons]
    omega

theorem lookupCount_bumpCount (m : Counts) (k x : Rat) :
    lookupCount (bumpCount m k) x =
      lookupCount m x + (if x = k then 1 else 0) := by
  induction m with
  | nil =>
    by_cases h : k = x
    · subst h; simp [bumpCount, lookupCount]
    · simp [bumpCount, lookupCount, h, Ne.symm h]
  | cons p tl ih =>
    obtain ⟨a, c⟩ := p
    by_cases h : a = k
    · subst h
      by_cases hx : a = x
      · subst hx; simp [bumpCount, lookupCount]
      · simp [bumpCount, lookupCount, hx, Ne.symm hx]
    · by_cases hx : a = x
      · subst hx
        simp [bumpCount, lookupCount, h, Ne.symm h]
      · simp [bumpCount, lookupCount, h, hx, ih]

theorem lookupCount_foldl (l : List Rat) :
    ∀ (m : Counts) (x : Rat),
      lookupCount (l.foldl bumpCount m) x = lookupCount m x + occCount l x := by
  induction l with
  | nil => intro m x; simp [occCount]
  | cons a tl ih =>
    intro m x
    rw [List.foldl_cons, ih (bumpCount m a) x, lookupCount_bumpCount]
    by_cases h : a = x
    · subst h; simp [occCount]; omega
    · simp [occCount, h, Ne.symm h]

theorem lookupCount_buildCounts (rates : List Rat) (x : Rat) :
    lookupCount (buildCounts rates) x = occCount rates x := by
  have := lookupCount_foldl rates [] x
  simpa [buildCounts, lookupCount] using this

theorem nodup_keysOf_bumpCount (m : Counts) (k : Rat)
    (h : (keysOf m).Nodup) : (keysOf (bumpCount m k)).Nodup := by
  rw [keysOf_bumpCount]
  by_cases hk : k ∈ keysOf m
  · simpa [hk] using h
  · simp [hk, List.nodup_append, h]

theorem nodup_keysOf_foldl (l : List Rat) :
    ∀ (m : Counts), (keysOf m).Nodup → (keysOf (l.foldl bumpCount m)).Nodup := by
  induction l with
  | nil => intro m h; simpa using h
  | cons a tl ih =>
    intro m h
    rw [List.foldl_cons]
    exact ih (bumpCount m a) (nodup_keysOf_bumpCount m a h)

theorem nodup_keysOf_buildCounts (rates : List Rat) :
    (keysOf (buildCounts rates)).Nodup := by
  have : (keysOf ([] : Counts)).Nodup := by simp [keysOf]
  exact nodup_keysOf_foldl rates [] this

theorem lookupCount_eq_of_mem (m : Counts) (k : Rat) (c : Nat)
    (hnd : (keysOf m).Nodup) (hm : (k, c) ∈ m) : lookupCount m k = c := by
  induction m with
  | nil => simp at hm
  | cons p tl ih =>
    obtain ⟨a, b⟩ := p
    have hnd' : a ∉ keysOf tl ∧ (keysOf tl).Nodup :=
      List.nodup_cons.mp (by simpa [keysOf] using hnd)
    rcases List.mem_cons.mp hm with heq | htl
    · injection heq with h1 h2
      subst h1
      subst h2
      simp [lookupCount]
    · have ha : ¬(a = k) := by
        intro h
        subst h
        exact hnd'.1 (by simpa [keysOf] using List.mem_map_of_mem Prod.fst htl)
      have heq : lookupCount ((a, b) :: tl) k = lookupCount tl k := by
        simp [lookupCount, ha]
      rw [heq]
      exact ih hnd'.2 htl

theorem mem_of_mem_keysOf (m : Counts) (k : Rat) (h : k ∈ keysOf m) :
    (k, lookupCount m k) ∈ m := by
  induction m with
  | nil => simp [keysOf] at h
  | cons p tl ih =>
    obtain ⟨a, c⟩ := p
    by_cases ha : a = k
    · subst ha
      simp [lookupCount]
    · have hk : k ∈ keysOf tl := by
        have : k = a ∨ k ∈ keysOf tl := by
          simpa [keysOf, List.mem_cons] using h
        rcases this with h1 | h1
        · exact absurd h1.symm ha
        · exact h1
      have heq : lookupCount ((a, c) :: tl) k = lookupCount tl k := by
        simp [lookupCount, ha]
      rw [heq]
      exact List.mem_cons_of_mem _ (ih hk)

theorem maxKey_eq_of_strict :
    ∀ (rest : Counts) (first : Rat × Nat) (k : Rat) (c : Nat),
      (keysOf (first :: rest)).Nodup →
      (k, c) ∈ first :: rest →
      (∀ p ∈ first :: rest, p.1 ≠ k → p.2 < c) →
      maxKey first rest = (k, c) := by
  intro rest
  induction rest with
  | nil =>
    intro first k c _ hm _
    rcases List.mem_cons.mp hm with h | h
    · simpa [maxKey] using h.symm
    · simp at h
  | cons p rest' ih =>
    intro first k c hnd hm hlt
    have step : maxKey first (p :: rest')
        = maxKey (if first.2 < p.2 then p else first) rest' := by
      simp [maxKey]
    have hndL : first.1 ∉ (p.1 :: keysOf rest') ∧ p.1 ∉ keysOf rest'
        ∧ (keysOf rest').Nodup := by
      have h0 : (first.1 :: p.1 :: keysOf rest').Nodup := by
        simpa [keysOf] using hnd
      have h1 := List.nodup_cons.mp h0
      have h2 := List.nodup_cons.mp h1.2
      exact ⟨h1.1, h2.1, h2.2⟩
    have hfp : first.1 ≠ p.1 := by
      intro h
      exact hndL.1 (by simp [h])
    have hf_not : first.1 ∉ keysOf rest' :=
      fun h => hndL.1 (List.mem_cons_of_mem _ h)
    have mkNodup : ∀ q : Rat × Nat, q.1 ∉ keysOf rest' →
        (keysOf (q :: rest')).Nodup := by
      intro q hq
      simpa [keysOf] using List.nodup_cons.mpr ⟨hq, hndL.2.2⟩
    rcases List.mem_cons.mp hm with hf | hm2
    · have hk1 : first.1 = k := by rw [← hf]
      have hc2 : first.2 = c := by rw [← hf]
      have hp1 : p.1 ≠ k := by
        intro h
        exact hfp (by rw [hk1, h])
      have hplt : p.2 < c := hlt p (by simp) hp1
      have hcmp : ¬ first.2 < p.2 := by rw [hc2]; omega
      rw [step, if_neg hcmp]
      refine ih first k c (mkNodup first hf_not) ?_ ?_
      · exact List.mem_cons.mpr (Or.inl hf)
      · intro q hq hqk
        rcases List.mem_cons.mp hq with h | h
        · exact hlt q (by simp [h]) hqk
        · exact hlt q (by simp [List.mem_cons, h]) hqk
    · rcases List.mem_cons.mp hm2 with hp | hr
      · have hk1 : p.1 = k := by rw [← hp]
        have hc2 : p.2 = c := by rw [← hp]
        have hf1 : first.1 ≠ k := by
          intro h
          exact hfp (by rw [h, hk1])
        have hflt : first.2 < c := hlt first (by simp) hf1
        have hcmp : first.2 < p.2 := by rw [hc2]; exact hflt
        rw [step, if_pos hcmp]
        refine ih p k c (mkNodup p hndL.2.1) ?_ ?_
        · exact List.mem_cons.mpr (Or.inl hp)
        · intro q hq hqk
          rcases List.mem_cons.mp hq with h | h
          · exact hlt q (by simp [h]) hqk
          · exact hlt q (by simp [List.mem_cons, h]) hqk
      · by_cases hcmp : first.2 < p.2
        · rw [step, if_pos hcmp]
          refine ih p k c (mkNodup p hndL.2.1) (List.mem_cons_of_mem _ hr) ?_
          intro q hq hqk
          rcases List.mem_cons.mp hq with h | h
          · exact hlt q (by simp [h]) hqk
          · exact hlt q (by simp [List.mem_cons, h]) hqk
        · rw [step, if_neg hcmp]
          refine ih first k c (mkNodup first hf_not) (List.mem_cons_of_mem _ hr) ?_
          intro q hq hqk
          rcases List.mem_cons.mp hq with h | h
          · exact hlt q (by simp [h]) hqk
          · exact hlt q (by simp [List.mem_cons, h]) hqk

theorem occCount_pos (l : List Rat) (x : Rat) : 0 < occCount l x ↔ x ∈ l := by
  induction l with
  | nil => simp [occCount]
  | cons a tl ih =>
    by_cases h : a = x
    · subst h
      simp [occCount]
    · simp [occCount, h, List.mem_cons, ih, Ne.symm h]

/-! ## Claim theorems: Media Prober and Compatibility Analyzer -/

/-- The concrete input refuting C1 as stated: a clean ffprobe run (exit
code 0, valid JSON) holding one video stream whose r_frame_rate is the
fraction "0/0", which ffprobe emits for streams with undetermined frame
rate. -/
def zeroDenProbe : ProbeOutcomeRaw :=
  ProbeOutcomeRaw.ran 0 (StdoutRaw.parsed
    { streams := [{ codec_type := some "video", codec_name := some "h264",
                    width := some 1920, height := some 1080,
                    r_frame_rate := some ⟨0, 0⟩ }],
      format_duration := some 30 })

/-- Counterexample to C1: get_media_info does not return a record for
every probe outcome.  On `zeroDenProbe` the frame-rate eval of the stream
loop — outside every try/except — divides by zero and the exception
escapes (`none`), so the function neither returns a record nor degrades
this failure to the empty record. -/
theorem probe_never_raises_counterexample :
    get_media_info_raw zeroDenProbe = none ∧
    ¬ ∀ o : ProbeOutcomeRaw, ∃ i : MediaInfo,
        get_media_info_raw o = some i := by
  have h0 : get_media_info_raw zeroDenProbe = none := by decide
  refine ⟨h0, ?_⟩
  intro hall
  obtain ⟨i, hi⟩ := hall zeroDenProbe
  rw [h0] at hi
  exact Option.noConfusion hi

/-- C1 amended: every guarded failure of the Media Prober — subprocess
exception, nonzero exit, empty or unparsable output — returns (does not
raise) the empty record, with zero duration and frame-rate reads and
absent codec fields; but the frame-rate eval of the stream loop is not
guarded, and a parsed video stream with a zero-denominator r_frame_rate
makes get_media_info raise instead of returning a record. -/
theorem probe_guarded_failure_degrades_to_empty (o : ProbeOutcomeRaw)
    (h : probeFailedRaw o) :
    get_media_info_raw o = some emptyInfo ∧
    getDuration emptyInfo = 0 ∧
    getFps emptyInfo = 0 ∧
    emptyInfo.video_codec = none ∧
    emptyInfo.audio_codec = none ∧
    get_media_info_raw zeroDenProbe = none := by
  refine ⟨?_, rfl, rfl, rfl, rfl, by decide⟩
  cases o with
  | exn => rfl
  | ran rc out =>
    by_cases hrc : rc = 0
    · subst hrc
      rcases h with h | h | h
      · exact absurd rfl h
      · subst h; rfl
      · subst h; rfl
    · simp [get_media_info_raw, hrc]

/-- Witness for the amended C1 at the concrete outcome of a raised
subprocess call. -/
theorem probe_guarded_failure_degrades_to_empty_witness :
    probeFailedRaw ProbeOutcomeRaw.exn ∧
    get_media_info_raw ProbeOutcomeRaw.exn = some emptyInfo ∧
    getDuration emptyInfo = 0 ∧
    getFps emptyInfo = 0 ∧
    emptyInfo.video_codec = none ∧
    emptyInfo.audio_codec = none ∧
    get_media_info_raw zeroDenProbe = none :=
  ⟨trivial,
   probe_guarded_failure_degrades_to_empty ProbeOutcomeRaw.exn trivial⟩

/-- C3: with fewer than 2 files the analyzer is trivially compatible, the
majority is 0 for the empty list and, for a one-element list, the probed
rate of that single file. -/
theorem fmr_small_list_trivially_compatible (info : String → MediaInfo)
    (files : List String) (h : files.length < 2) :
    (find_majority_frame_rate info files).1 = true ∧
    (files = [] → (find_majority_frame_rate info files).2 = 0) ∧
    (∀ v, files = [v] →
      (find_majority_frame_rate info files).2 = getFps (info v)) := by
  cases files with
  | nil =>
    refine ⟨rfl, fun _ => rfl, ?_⟩
    intro v hv
    simp at hv
  | cons a tl =>
    cases tl with
    | nil =>
      refine ⟨rfl, ?_, ?_⟩
      · intro hv; simp at hv
      · intro v hv
        injection hv with h1 _
        subst h1
        rfl
    | cons b tl' =>
      exfalso
      simp [List.length_cons] at h
      omega

/-- Witness for C3 on the empty list and a singleton list. -/
theorem fmr_small_list_trivially_compatible_witness :
    ((find_majority_frame_rate (fun _ => emptyInfo) []).1 = true ∧
      (find_majority_frame_rate (fun _ => emptyInfo) []).2 = 0) ∧
    ((find_majority_frame_rate (fun _ => emptyInfo) ["a.mp4"]).1 = true ∧
      (find_majority_frame_rate (fun _ => emptyInfo) ["a.mp4"]).2
        = getFps ((fun (_ : String) => emptyInfo) "a.mp4")) :=
  ⟨⟨(fmr_small_list_trivially_compatible (fun _ => emptyInfo) [] (by decide)).1,
    (fmr_small_list_trivially_compatible (fun _ => emptyInfo) [] (by decide)).2.1 rfl⟩,
   ⟨(fmr_small_list_trivially_compatible (fun _ => emptyInfo) ["a.mp4"] (by decide)).1,
    (fmr_small_list_trivially_compatible (fun _ => emptyInfo) ["a.mp4"]
      (by decide)).2.2 "a.mp4" rfl⟩⟩

/-- C2: for at least 2 files, isCompatible is true iff exactly one
distinct rate appears among the probed rates (all probed rates, probe
failures reading as 0, are equal), and when a single rate r appears the
returned majority equals r. -/
theorem fmr_compatible_iff_single_rate (info : String → MediaInfo)
    (files : List String) (h : 2 ≤ files.length) :
    ((find_majority_frame_rate info files).1 = true ↔
      ∃ r, ∀ v ∈ files, getFps (info v) = r) ∧
    (∀ r, (∀ v ∈ files, getFps (info v) = r) →
      (find_majority_frame_rate info files).2 = r) := by
  have hlt : ¬ files.length < 2 := by omega
  set rates := files.map (fun v => getFps (info v)) with hrates
  have hrlen : rates.length = files.length := by
    rw [hrates]; exact List.length_map files _
  have hrne : rates ≠ [] := by
    intro hnil
    rw [hnil] at hrlen
    simp at hrlen
    omega
  have hallmap : ∀ r, (∀ v ∈ files, getFps (info v) = r) → ∀ x ∈ rates, x = r := by
    intro r hf x hx
    rw [hrates] at hx
    obtain ⟨v, hv, hvx⟩ := List.mem_map.mp hx
    rw [← hvx]
    exact hf v hv
  cases hc : buildCounts rates with
  | nil =>
    exfalso
    obtain ⟨x, hx⟩ := List.exists_mem_of_ne_nil rates hrne
    have := (mem_keysOf_buildCounts rates x).mpr hx
    rw [hc] at this
    simp [keysOf] at this
  | cons first rest =>
    have hfind : find_majority_frame_rate info files
        = ((first :: rest).length == 1, (maxKey first rest).1) := by
      simp only [find_majority_frame_rate, if_neg hlt, ← hrates, hc]
    refine ⟨⟨?_, ?_⟩, ?_⟩
    · intro hcompat
      rw [hfind] at hcompat
      have hrest : rest = [] := by
        cases rest with
        | nil => rfl
        | cons b l =>
          exfalso
          simp [List.length_cons] at hcompat
      subst hrest
      refine ⟨first.1, ?_⟩
      intro v hv
      have hxr : getFps (info v) ∈ rates := by
        rw [hrates]
        exact List.mem_map_of_mem _ hv
      have := (mem_keysOf_buildCounts rates (getFps (info v))).mpr hxr
      rw [hc] at this
      simpa [keysOf] using this
    · rintro ⟨r, hr⟩
      have hbc := buildCounts_all_eq rates r hrne (hallmap r hr)
      rw [hc] at hbc
      injection hbc with h1 h2
      rw [hfind]
      simp [h2]
    · intro r hr
      have hbc := buildCounts_all_eq rates r hrne (hallmap r hr)
      rw [hc] at hbc
      injection hbc with h1 h2
      subst h2
      rw [hfind]
      show (maxKey first []).1 = r
      simp [maxKey, h1]

/-- A concrete MediaInfo with a given frame rate and duration, used by
witnesses. -/
def infoAt (r d : Rat) : MediaInfo :=
  { duration := some d, video_codec := some "h264", width := some 1920,
    height := some 1080, fps := some r, audio_codec := some "aac" }

/-- A probe result assigning every path a 30 fps stream. -/
def wInfo30 : String → MediaInfo := fun _ => infoAt 30 30

/-- A probe result assigning 24 fps to c.mp4 and 30 fps elsewhere. -/
def wInfoMix : String → MediaInfo :=
  fun p => if p = "c.mp4" then infoAt 24 10 else infoAt 30 10

/-- Witness for C2 on two files probing at 30 fps. -/
theorem fmr_compatible_iff_single_rate_witness :
    (find_majority_frame_rate wInfo30 ["a.mp4", "b.mp4"]).1 = true ∧
    (find_majority_frame_rate wInfo30 ["a.mp4", "b.mp4"]).2 = 30 :=
  ⟨(fmr_compatible_iff_single_rate wInfo30 ["a.mp4", "b.mp4"] (by decide)).1.mpr
      ⟨30, by decide⟩,
   (fmr_compatible_iff_single_rate wInfo30 ["a.mp4", "b.mp4"] (by decide)).2
      30 (by decide)⟩

/-- C4: with at least 2 files whose probed rates include at least 2
distinct values, if the occurrence count of one rate strictly exceeds
the count of every other rate then the returned majority is that rate. -/
theorem fmr_strict_majority (info : String → MediaInfo) (files : List String)
    (r : Rat) (h2 : 2 ≤ files.length)
    (hdist : ∃ x ∈ files.map (fun v => getFps (info v)), x ≠ r)
    (hstrict : ∀ x ∈ files.map (fun v => getFps (info v)), x ≠ r →
      occCount (files.map (fun v => getFps (info v))) x
        < occCount (files.map (fun v => getFps (info v))) r) :
    (find_majority_frame_rate info files).2 = r := by
  have hlt : ¬ files.length < 2 := by omega
  set rates := files.map (fun v => getFps (info v)) with hrates
  obtain ⟨x, hx, hxr⟩ := hdist
  have hxpos : 0 < occCount rates x := (occCount_pos rates x).mpr hx
  have hxlt : occCount rates x < occCount rates r := hstrict x hx hxr
  have hrmem : r ∈ rates := (occCount_pos rates r).mp (by omega)
  cases hc : buildCounts rates with
  | nil =>
    exfalso
    have := (mem_keysOf_buildCounts rates r).mpr hrmem
    rw [hc] at this
    simp [keysOf] at this
  | cons first rest =>
    have hfind : find_majority_frame_rate info files
        = ((first :: rest).length == 1, (maxKey first rest).1) := by
      simp only [find_majority_frame_rate, if_neg hlt, ← hrates, hc]
    have hnd : (keysOf (first :: rest)).Nodup := by
      rw [← hc]
      exact nodup_keysOf_buildCounts rates
    have hkey : r ∈ keysOf (first :: rest) := by
      rw [← hc]
      exact (mem_keysOf_buildCounts rates r).mpr hrmem
    have hmem : (r, occCount rates r) ∈ first :: rest := by
      have h1 := mem_of_mem_keysOf (first :: rest) r hkey
      have h2 : lookupCount (first :: rest) r = occCount rates r := by
        rw [← hc]
        exact lookupCount_buildCounts rates r
      rw [h2] at h1
      exact h1
    have hltall : ∀ p ∈ first :: rest, p.1 ≠ r → p.2 < occCount rates r := by
      intro p hp hpne
      have hpk : p.1 ∈ keysOf (first :: rest) := by
        simpa [keysOf] using List.mem_map_of_mem Prod.fst hp
      have hpr : p.1 ∈ rates := by
        rw [← hc] at hpk
        exact (mem_keysOf_buildCounts rates p.1).mp hpk
      have hlk : lookupCount (first :: rest) p.1 = p.2 :=
        lookupCount_eq_of_mem _ p.1 p.2 hnd hp
      have hocc : occCount rates p.1 = p.2 := by
        calc occCount rates p.1
            = lookupCount (buildCounts rates) p.1 :=
              (lookupCount_buildCounts rates p.1).symm
          _ = lookupCount (first :: rest) p.1 := by rw [hc]
          _ = p.2 := hlk
      rw [← hocc]
      exact hstrict p.1 hpr hpne
    have hmax := maxKey_eq_of_strict rest first r (occCount rates r) hnd hmem hltall
    rw [hfind]
    show (maxKey first rest).1 = r
    rw [hmax]

/-- Witness for C4: rates 30, 30, 24 give majority 30. -/
theorem fmr_strict_majority_witness :
    (find_majority_frame_rate wInfoMix ["a.mp4", "b.mp4", "c.mp4"]).2 = 30 :=
  fmr_strict_majority wInfoMix ["a.mp4", "b.mp4", "c.mp4"] 30
    (by decide) (by decide) (by decide)

/-! ## Paths and configuration -/

/-- Python str.lower, character by character. -/
def toLowerPy (s : String) : String := String.mk (s.data.map Char.toLower)

/-- Split a character list at its last dot: the characters before and
after the last dot character, or none when no dot occurs. -/
def lastSplitDot : List Char → Option (List Char × List Char)
  | [] => none
  | c :: cs =>
    match lastSplitDot cs with
    | some (b, a) => some (c :: b, a)
    | none => if c = '.' then some ([], cs) else none

/-- pathlib Path.suffix: the extension from the last dot; empty when the
last dot is the first or the last character of the name. -/
def pathSuffix (name : String) : String :=
  match lastSplitDot name.data with
  | none => ""
  | some (b, a) => if b = [] ∨ a = [] then "" else String.mk ('.' :: a)

/-- pathlib Path.stem: the file name without its suffix. -/
def pathStem (name : String) : String :=
  match lastSplitDot name.data with
  | none => name
  | some (b, a) => if b = [] ∨ a = [] then name else String.mk b

/-- pathlib Path.as_posix: the path with forward slashes. -/
def as_posix (p : String) : String :=
  String.mk (p.data.map (fun c => if c = '\\' then '/' else c))

/-- VIDEO_EXTENSIONS from the configuration block. -/
def VIDEO_EXTENSIONS : List String :=
  [".mp4", ".mov", ".mkv", ".avi", ".m4a", ".3gp", ".3g2"]

/-- AUDIO_EXTENSIONS from the configuration block. -/
def AUDIO_EXTENSIONS : List String := [".mp3", ".wav", ".m4a", ".aac"]

/-- FADE_IN_SECONDS = 0.5. -/
def FADE_IN_SECONDS : Rat := 1/2

/-- FADE_OUT_SECONDS = 1.0. -/
def FADE_OUT_SECONDS : Rat := 1

/-- OUTPUT_PATH, relative to the project root. -/
def OUTPUT_PATH : String := "final_video_fast.mp4"

/-- The fixed manifest location TRANSCODED_DIR / "concat_list.txt". -/
def concat_list_path : String := "transcoded/concat_list.txt"

/-- The filename exclusion tuple in the video discovery filter. -/
def excluded_names : List String :=
  ["music.mp3", "final_video_fast.mp4", "final_video.mp4"]

/-! ## Command tokens -/

/-- One token of a built ffmpeg command line.  `num v` is a numeric value
formatted into an argument (`str(x)` in the source); `fchain` is the
filter_complex argument with its four interpolated values in order: trim
duration, fade-in duration, fade-out start, fade-out duration (the
fade-in start is the constant 0 of the format string). -/
inductive Tok where
  | s : String → Tok
  | num : Rat → Tok
  | fchain : Rat → Rat → Rat → Rat → Tok
deriving DecidableEq

/-! ## Concatenation List Builder (create_concatenation_list) -/

/-- Source create_concatenation_list: returns the fixed manifest path and
the written lines, one line per input video in input order, each the
word file followed by the single-quoted as_posix form of the path. -/
def create_concatenation_list (video_files : List String) :
    String × List String :=
  (concat_list_path,
   video_files.map (fun video => "file \x27" ++ as_posix video ++ "\x27"))

/-! ## Transcoder (transcode_video) -/

/-- The derived output path TRANSCODED_DIR / f"{stem}_h264{fps_label}.mp4".
The label is empty when target_fps is None or 0.0, both falsy in the
check `if target_fps` of the source. -/
def transcode_output_path (stem : String) (target_fps : Option Rat) : String :=
  let fps_label :=
    if target_fps.getD 0 ≠ 0 then "_fps" ++ toString (target_fps.getD 0) else ""
  "transcoded/" ++ stem ++ "_h264" ++ fps_label ++ ".mp4"

/-- The encoder command built by transcode_video; `-r` is added only for a
truthy target_fps. -/
def transcode_command (input_file : String) (target_fps : Option Rat)
    (output_file : String) : List Tok :=
  [Tok.s "ffmpeg", Tok.s "-y", Tok.s "-i", Tok.s input_file,
   Tok.s "-c:v", Tok.s "h264_nvenc"]
  ++ (if target_fps.getD 0 ≠ 0 then [Tok.s "-r", Tok.num (target_fps.getD 0)]
      else [])
  ++ [Tok.s "-c:a", Tok.s "aac", Tok.s "-b:a", Tok.s "128k",
      Tok.s output_file]

/-- Externally observable tool invocations of a run: a merge run with its
hardware flag, or an actual encoder run for one input file (a transcode
cache hit emits nothing). -/
inductive Ev where
  | merge : Bool → Ev
  | encode : String → Ev
deriving DecidableEq

/-- Source transcode_video.  The transcoded directory contents are the
cache list; run_ffmpeg success is `runOk` of the built command, and a
successful run leaves the output file on disk.  Returns (new cache,
emitted invocations, result); a cache hit returns the existing path with
no encoder run, and a failed run models the raised RuntimeError as
`none`. -/
def transcode_video (runOk : List Tok → Bool) (cache : List String)
    (input_file : String) (target_fps : Option Rat) :
    List String × List Ev × Option String :=
  let output_file := transcode_output_path (pathStem input_file) target_fps
  if output_file ∈ cache then (cache, [], some output_file)
  else if runOk (transcode_command input_file target_fps output_file) then
    (output_file :: cache, [Ev.encode input_file], some output_file)
  else (cache, [Ev.encode input_file], none)

/-! ## Merger (merge_videos_with_music) -/

/-- Source merge_videos_with_music, as the command it constructs.  The
probe is `info`; `music_file and music_file.exists()` is `fsExists`; the
actual run is modelled by the caller.  With present music of positive
duration, a trim+fade filter chain over the video stream is emitted and
the non-hardware branch picks the "copy" video codec; otherwise music (if
present) is mapped with `-shortest` and the codec block depends only on
the hardware flag. -/
def merge_videos_with_music (info : String → MediaInfo)
    (fsExists : String → Bool) (concatenation_list : String)
    (music_file : Option String) (output_file : String)
    (use_hardware_encoding : Bool) : List Tok :=
  let has_music : Bool := (music_file.map fsExists).getD false
  let music_duration : Rat :=
    if has_music then getDuration (info (music_file.getD "")) else 0
  let command : List Tok :=
    [Tok.s "ffmpeg", Tok.s "-y", Tok.s "-f", Tok.s "concat",
     Tok.s "-safe", Tok.s "0", Tok.s "-i", Tok.s concatenation_list]
  let tail : List Tok :=
    if has_music && decide (0 < music_duration) then
      let fade_out_start := max 0 (music_duration - FADE_OUT_SECONDS)
      let filter_chain :=
        Tok.fchain music_duration FADE_IN_SECONDS fade_out_start
          FADE_OUT_SECONDS
      [Tok.s "-i", Tok.s (music_file.getD "")] ++
      (if use_hardware_encoding then
        [Tok.s "-filter_complex", filter_chain,
         Tok.s "-map", Tok.s "[v]", Tok.s "-map", Tok.s "1:a",
         Tok.s "-t", Tok.num music_duration,
         Tok.s "-c:v", Tok.s "h264_nvenc", Tok.s "-c:a", Tok.s "aac",
         Tok.s "-preset", Tok.s "p5"]
      else
        [Tok.s "-filter_complex", filter_chain,
         Tok.s "-map", Tok.s "[v]", Tok.s "-map", Tok.s "1:a",
         Tok.s "-t", Tok.num music_duration,
         Tok.s "-c:v", Tok.s "copy", Tok.s "-c:a", Tok.s "aac"])
    else
      (if has_music then
        [Tok.s "-i", Tok.s (music_file.getD ""),
         Tok.s "-map", Tok.s "0:v", Tok.s "-map", Tok.s "1:a",
         Tok.s "-shortest"]
      else []) ++
      (if use_hardware_encoding then
        [Tok.s "-c:v", Tok.s "h264_nvenc", Tok.s "-c:a", Tok.s "aac",
         Tok.s "-preset", Tok.s "p5"]
      else [Tok.s "-c:v", Tok.s "copy", Tok.s "-c:a", Tok.s "aac"])
  command ++ tail ++ [Tok.s output_file]

/-- The shape of the merge command when music is present with positive
duration: the forced filter branch of the source. -/
theorem merge_music_branch (info : String → MediaInfo)
    (fsExists : String → Bool) (cl m out : String) (hw : Bool)
    (hex : fsExists m = true) (hdur : 0 < getDuration (info m)) :
    merge_videos_with_music info fsExists cl (some m) out hw =
      [Tok.s "ffmpeg", Tok.s "-y", Tok.s "-f", Tok.s "concat",
       Tok.s "-safe", Tok.s "0", Tok.s "-i", Tok.s cl,
       Tok.s "-i", Tok.s m] ++
      (if hw then
        [Tok.s "-filter_complex",
         Tok.fchain (getDuration (info m)) FADE_IN_SECONDS
           (max 0 (getDuration (info m) - FADE_OUT_SECONDS)) FADE_OUT_SECONDS,
         Tok.s "-map", Tok.s "[v]", Tok.s "-map", Tok.s "1:a",
         Tok.s "-t", Tok.num (getDuration (info m)),
         Tok.s "-c:v", Tok.s "h264_nvenc", Tok.s "-c:a", Tok.s "aac",
         Tok.s "-preset", Tok.s "p5"]
      else
        [Tok.s "-filter_complex",
         Tok.fchain (getDuration (info m)) FADE_IN_SECONDS
           (max 0 (getDuration (info m) - FADE_OUT_SECONDS)) FADE_OUT_SECONDS,
         Tok.s "-map", Tok.s "[v]", Tok.s "-map", Tok.s "1:a",
         Tok.s "-t", Tok.num (getDuration (info m)),
         Tok.s "-c:v", Tok.s "copy", Tok.s "-c:a", Tok.s "aac"]) ++
      [Tok.s out] := by
  cases hw <;>
    simp [merge_videos_with_music, hex, hdur]

/-- C5: for a present music file of positive duration, the fade-out start
placed in the filter chain equals max(0, music_duration − FADE_OUT_SECONDS)
and is never negative; at duration 30 the clamp gives 29 and at duration
1/2 it gives 0. -/
theorem fade_out_start_clamped (info : String → MediaInfo)
    (fsExists : String → Bool) (cl m out : String) (hw : Bool)
    (hex : fsExists m = true) (hdur : 0 < getDuration (info m)) :
    (Tok.fchain (getDuration (info m)) FADE_IN_SECONDS
        (max 0 (getDuration (info m) - FADE_OUT_SECONDS)) FADE_OUT_SECONDS
      ∈ merge_videos_with_music info fsExists cl (some m) out hw) ∧
    0 ≤ max 0 (getDuration (info m) - FADE_OUT_SECONDS) ∧
    max 0 ((30 : Rat) - FADE_OUT_SECONDS) = 29 ∧
    max 0 ((1/2 : Rat) - FADE_OUT_SECONDS) = 0 := by
  refine ⟨?_, le_max_left 0 _, ?_, ?_⟩
  · rw [merge_music_branch info fsExists cl m out hw hex hdur]
    cases hw <;> simp
  · rw [show (30 : Rat) - FADE_OUT_SECONDS = 29 by norm_num [FADE_OUT_SECONDS]]
    exact max_eq_right (by norm_num)
  · rw [show (1/2 : Rat) - FADE_OUT_SECONDS = -(1/2) by
        norm_num [FADE_OUT_SECONDS]]
    exact max_eq_left (by norm_num)

/-- Witness for C5 with an everywhere-existing music file of duration 30
and the non-hardware flag. -/
theorem fade_out_start_clamped_witness :
    (Tok.fchain (getDuration (wInfo30 "Music/song.mp3")) FADE_IN_SECONDS
        (max 0 (getDuration (wInfo30 "Music/song.mp3") - FADE_OUT_SECONDS))
        FADE_OUT_SECONDS
      ∈ merge_videos_with_music wInfo30 (fun _ => true) concat_list_path
          (some "Music/song.mp3") OUTPUT_PATH false) ∧
    0 ≤ max 0 (getDuration (wInfo30 "Music/song.mp3") - FADE_OUT_SECONDS) ∧
    max 0 ((30 : Rat) - FADE_OUT_SECONDS) = 29 ∧
    max 0 ((1/2 : Rat) - FADE_OUT_SECONDS) = 0 :=
  fade_out_start_clamped wInfo30 (fun _ => true) concat_list_path
    "Music/song.mp3" OUTPUT_PATH false rfl (by decide)

/-- C9: in the forced-re-encode case (music present with positive
duration) with the hardware flag off, the built command both applies the
trim+fade filter chain and selects "copy" as the video codec. -/
theorem filter_chain_with_copy_codec (info : String → MediaInfo)
    (fsExists : String → Bool) (cl m out : String)
    (hex : fsExists m = true) (hdur : 0 < getDuration (info m)) :
    (Tok.fchain (getDuration (info m)) FADE_IN_SECONDS
        (max 0 (getDuration (info m) - FADE_OUT_SECONDS)) FADE_OUT_SECONDS
      ∈ merge_videos_with_music info fsExists cl (some m) out false) ∧
    ∃ pre post,
      merge_videos_with_music info fsExists cl (some m) out false =
        pre ++ [Tok.s "-c:v", Tok.s "copy"] ++ post := by
  rw [merge_music_branch info fsExists cl m out false hex hdur]
  constructor
  · simp
  · refine ⟨[Tok.s "ffmpeg", Tok.s "-y", Tok.s "-f", Tok.s "concat",
      Tok.s "-safe", Tok.s "0", Tok.s "-i", Tok.s cl,
      Tok.s "-i", Tok.s m, Tok.s "-filter_complex",
      Tok.fchain (getDuration (info m)) FADE_IN_SECONDS
        (max 0 (getDuration (info m) - FADE_OUT_SECONDS)) FADE_OUT_SECONDS,
      Tok.s "-map", Tok.s "[v]", Tok.s "-map", Tok.s "1:a",
      Tok.s "-t", Tok.num (getDuration (info m))],
      [Tok.s "-c:a", Tok.s "aac", Tok.s out], ?_⟩
    simp

/-- Witness for C9 with an everywhere-existing music file of duration 30. -/
theorem filter_chain_with_copy_codec_witness :
    (Tok.fchain (getDuration (wInfo30 "Music/song.mp3")) FADE_IN_SECONDS
        (max 0 (getDuration (wInfo30 "Music/song.mp3") - FADE_OUT_SECONDS))
        FADE_OUT_SECONDS
      ∈ merge_videos_with_music wInfo30 (fun _ => true) concat_list_path
          (some "Music/song.mp3") OUTPUT_PATH false) ∧
    ∃ pre post,
      merge_videos_with_music wInfo30 (fun _ => true) concat_list_path
          (some "Music/song.mp3") OUTPUT_PATH false =
        pre ++ [Tok.s "-c:v", Tok.s "copy"] ++ post :=
  filter_chain_with_copy_codec wInfo30 (fun _ => true) concat_list_path
    "Music/song.mp3" OUTPUT_PATH rfl (by decide)

/-- C7: the written manifest has exactly one line per input path, in input
order, each the word file followed by the single-quoted path in
forward-slash form; the 3-path example gives exactly those 3 lines in order. -/
theorem concat_manifest_lines (video_files : List String) (i : Nat) :
    (create_concatenation_list video_files).2.length = video_files.length ∧
    (create_concatenation_list video_files).2[i]? =
      video_files[i]?.map (fun v => "file \x27" ++ as_posix v ++ "\x27") ∧
    (create_concatenation_list ["a.mp4", "b.mp4", "c.mp4"]).2 =
      ["file \x27a.mp4\x27", "file \x27b.mp4\x27", "file \x27c.mp4\x27"] := by
  refine ⟨?_, ?_, ?_⟩
  · simp [create_concatenation_list]
  · exact List.getElem?_map _ video_files i
  · decide

/-- C6: the transcode output path is a deterministic function of the stem
of the input file and the target rate, and a second call with the same input
and rate after a first call that returned a path performs no encoder run
and returns the same path (idempotence via the existence check). -/
theorem transcode_idempotent (runOk : List Tok → Bool) (cache : List String)
    (input_file : String) (target_fps : Option Rat) (p : String)
    (h : (transcode_video runOk cache input_file target_fps).2.2 = some p) :
    p = transcode_output_path (pathStem input_file) target_fps ∧
    transcode_video runOk
        (transcode_video runOk cache input_file target_fps).1
        input_file target_fps
      = ((transcode_video runOk cache input_file target_fps).1, [], some p)
    := by
  set out := transcode_output_path (pathStem input_file) target_fps with hout
  by_cases hc : out ∈ cache
  · have h1 : transcode_video runOk cache input_file target_fps
        = (cache, [], some out) := by
      simp [transcode_video, ← hout, hc]
    rw [h1] at h
    have hp : out = p := by simpa using h
    subst hp
    exact ⟨rfl, by rw [h1]; exact h1⟩
  · by_cases hr : runOk (transcode_command input_file target_fps out) = true
    · have h1 : transcode_video runOk cache input_file target_fps
          = (out :: cache, [Ev.encode input_file], some out) := by
        simp [transcode_video, ← hout, hc, hr]
      rw [h1] at h
      have hp : out = p := by simpa using h
      subst hp
      refine ⟨rfl, ?_⟩
      rw [h1]
      simp [transcode_video, ← hout]
    · have h1 : (transcode_video runOk cache input_file target_fps).2.2
          = none := by
        simp [transcode_video, ← hout, hc, hr]
      rw [h1] at h
      exact absurd h (by simp)

/-- Witness for C6: first call on an empty cache encodes a.mp4; the second
call returns the same derived path with no encoder run. -/
theorem transcode_idempotent_witness :
    "transcoded/a_h264.mp4"
        = transcode_output_path (pathStem "a.mp4") none ∧
    transcode_video (fun _ => true)
        (transcode_video (fun _ => true) [] "a.mp4" none).1 "a.mp4" none
      = ((transcode_video (fun _ => true) [] "a.mp4" none).1, [],
         some "transcoded/a_h264.mp4") :=
  transcode_idempotent (fun _ => true) [] "a.mp4" none
    "transcoded/a_h264.mp4" (by decide)

/-! ## Orchestrator (main) -/

/-- Insertion of a name into a sorted list by code-point order, modelling
Python sorted on strings. -/
def insertSorted (a : String) : List String → List String
  | [] => [a]
  | b :: l =>
    match compare a b with
    | Ordering.gt => b :: insertSorted a l
    | _ => a :: b :: l

/-- Python sorted(...) over a list of names. -/
def sortStr : List String → List String
  | [] => []
  | a :: l => insertSorted a (sortStr l)

/-- The external world and directory contents of one run: the ffprobe
outcome per path, the existence check used for the music file, the
initial contents of the transcoded directory, run_ffmpeg success per
command, and the entries of the project root and Music directories. -/
structure Env where
  probe : String → ProbeOutcome
  fsExists : String → Bool
  cache0 : List String
  runOk : List Tok → Bool
  rootFiles : List String
  musicFiles : List String

/-- get_media_info over the ffprobe of the run. -/
def probeOf (env : Env) : String → MediaInfo :=
  fun p => get_media_info (env.probe p)

/-- The video discovery of main: suffix in VIDEO_EXTENSIONS (lowercased),
name not excluded, then sorted. -/
def discoveredVideos (env : Env) : List String :=
  sortStr (env.rootFiles.filter (fun f =>
    decide (toLowerPy (pathSuffix f) ∈ VIDEO_EXTENSIONS) &&
    decide (f ∉ excluded_names)))

/-- The music discovery of main: suffix in AUDIO_EXTENSIONS (lowercased);
the source applies no sort here. -/
def discoveredMusic (env : Env) : List String :=
  env.musicFiles.filter (fun f =>
    decide (toLowerPy (pathSuffix f) ∈ AUDIO_EXTENSIONS))

/-- Outcome of a run of main: the two early discovery returns, the
no-survivors return, normal completion, or a propagated merge error. -/
inductive Outcome where
  | noVideos : Outcome
  | noMusic : Outcome
  | noSurvivors : Outcome
  | ok : Outcome
  | mergeFailed : Outcome
deriving DecidableEq

/-- The transcode loop of the fallback path: thread the cache, collect
invocations, and append each successfully transcoded output in order,
skipping failed files. -/
def transcodeAll (env : Env) (info : String → MediaInfo) (majority : Rat) :
    List String → List String → List String × List Ev × List String
  | cache, [] => (cache, [], [])
  | cache, v :: rest =>
    let current_fps := getFps (info v)
    let target := if current_fps ≠ majority then some majority else none
    let r1 := transcode_video env.runOk cache v target
    let r2 := transcodeAll env info majority r1.1 rest
    (r2.1, r1.2.1 ++ r2.2.1,
     match r1.2.2 with
     | some o => o :: r2.2.2
     | none => r2.2.2)

/-- The transcode path of main: transcode all videos to the majority rate
(omitting the target for files already at it), fail when no file
survives, otherwise build the manifest from the survivors and run the
merge in hardware mode; a merge failure here propagates. -/
def transcodePath (env : Env) (info : String → MediaInfo)
    (videos : List String) (majority : Rat) (music_file : String) :
    List Ev × Outcome :=
  let r := transcodeAll env info majority env.cache0 videos
  if r.2.2 = [] then (r.2.1, Outcome.noSurvivors)
  else
    let cl := create_concatenation_list r.2.2
    let cmd := merge_videos_with_music info env.fsExists cl.1
      (some music_file) OUTPUT_PATH true
    if env.runOk cmd then (r.2.1 ++ [Ev.merge true], Outcome.ok)
    else (r.2.1 ++ [Ev.merge true], Outcome.mergeFailed)

/-- Source main, as a function of the environment: discovery, the
compatibility check, the stream-copy fast path whose merge failure falls
back to the transcode path, or the transcode path directly. -/
def mainRun (env : Env) : List Ev × Outcome :=
  let videos := discoveredVideos env
  if videos = [] then ([], Outcome.noVideos)
  else
    match discoveredMusic env with
    | [] => ([], Outcome.noMusic)
    | music_file :: _ =>
      let info := probeOf env
      let fm := find_majority_frame_rate info videos
      if fm.1 then
        let cl := create_concatenation_list videos
        let cmd := merge_videos_with_music info env.fsExists cl.1
          (some music_file) OUTPUT_PATH false
        if env.runOk cmd then ([Ev.merge false], Outcome.ok)
        else
          let r := transcodePath env info videos fm.2 music_file
          (Ev.merge false :: r.1, r.2)
      else transcodePath env info videos fm.2 music_file

/-- The stream-copy merge command of the fast path. -/
def fastCmd (env : Env) : List Tok :=
  merge_videos_with_music (probeOf env) env.fsExists concat_list_path
    (some ((discoveredMusic env).headD "")) OUTPUT_PATH false

/-- The hardware merge command of the transcode path. -/
def hwCmd (env : Env) : List Tok :=
  merge_videos_with_music (probeOf env) env.fsExists concat_list_path
    (some ((discoveredMusic env).headD "")) OUTPUT_PATH true

/-- Test for the stream-copy merge invocation. -/
def isFastMergeEv : Ev → Bool
  | Ev.merge false => true
  | _ => false

/-- Test for the hardware merge invocation. -/
def isHwMergeEv : Ev → Bool
  | Ev.merge true => true
  | _ => false

theorem transcode_video_events (runOk : List Tok → Bool)
    (cache : List String) (input_file : String) (target_fps : Option Rat) :
    (transcode_video runOk cache input_file target_fps).2.1 = []
    ∨ (transcode_video runOk cache input_file target_fps).2.1
        = [Ev.encode input_file] := by
  by_cases hc : transcode_output_path (pathStem input_file) target_fps ∈ cache
  · left
    simp [transcode_video, hc]
  · by_cases hr : runOk (transcode_command input_file target_fps
        (transcode_output_path (pathStem input_file) target_fps)) = true
    · right
      simp [transcode_video, hc, hr]
    · right
      simp [transcode_video, hc, hr]

theorem transcodeAll_no_merge (env : Env) (info : String → MediaInfo)
    (majority : Rat) (videos : List String) :
    ∀ cache : List String,
      ((transcodeAll env info majority cache videos).2.1).countP
          isFastMergeEv = 0 ∧
      ((transcodeAll env info majority cache videos).2.1).countP
          isHwMergeEv = 0 := by
  induction videos with
  | nil =>
    intro cache
    simp [transcodeAll]
  | cons v rest ih =>
    intro cache
    have h1 := transcode_video_events env.runOk cache v
      (if getFps (info v) ≠ majority then some majority else none)
    have h2 := ih (transcode_video env.runOk cache v
      (if getFps (info v) ≠ majority then some majority else none)).1
    simp only [transcodeAll]
    constructor
    · rcases h1 with h1 | h1 <;>
        rw [List.countP_append, h1, h2.1] <;>
        simp [List.countP_cons, isFastMergeEv]
    · rcases h1 with h1 | h1 <;>
        rw [List.countP_append, h1, h2.2] <;>
        simp [List.countP_cons, isHwMergeEv]

theorem getLast_cons_of_getLast {α : Type} (a x : α) (l : List α)
    (h : l.getLast? = some x) : (a :: l).getLast? = some x := by
  cases l with
  | nil => simp at h
  | cons b t =>
    rw [List.getLast?_cons_cons]
    exact h

theorem transcodePath_spec (env : Env) (info : String → MediaInfo)
    (videos : List String) (majority : Rat) (m : String) :
    ((transcodePath env info videos majority m).1.countP isFastMergeEv = 0) ∧
    ((transcodePath env info videos majority m).1.countP isHwMergeEv ≤ 1) ∧
    ((transcodePath env info videos majority m).2 = Outcome.mergeFailed →
      env.runOk (merge_videos_with_music info env.fsExists concat_list_path
          (some m) OUTPUT_PATH true) = false ∧
      (transcodePath env info videos majority m).1.getLast?
        = some (Ev.merge true)) ∧
    (env.runOk (merge_videos_with_music info env.fsExists concat_list_path
        (some m) OUTPUT_PATH true) = false →
      (transcodePath env info videos majority m).2 ≠ Outcome.ok) := by
  have hta := transcodeAll_no_merge env info majority videos env.cache0
  by_cases hs : (transcodeAll env info majority env.cache0 videos).2.2 = []
  · have hres : transcodePath env info videos majority m
        = ((transcodeAll env info majority env.cache0 videos).2.1,
           Outcome.noSurvivors) := by
      simp only [transcodePath, if_pos hs]
    rw [hres]
    refine ⟨hta.1, by rw [hta.2]; omega, ?_, ?_⟩
    · intro hcontra
      exact absurd hcontra (by simp)
    · intro _
      simp
  · by_cases hr : env.runOk (merge_videos_with_music info env.fsExists
        concat_list_path (some m) OUTPUT_PATH true) = true
    · have hres : transcodePath env info videos majority m
          = ((transcodeAll env info majority env.cache0 videos).2.1
              ++ [Ev.merge true], Outcome.ok) := by
        simp only [transcodePath, if_neg hs, create_concatenation_list]
        rw [if_pos hr]
      rw [hres]
      refine ⟨?_, ?_, ?_, ?_⟩
      · rw [List.countP_append, hta.1]
        simp [List.countP_cons, isFastMergeEv]
      · rw [List.countP_append, hta.2]
        simp [List.countP_cons, isHwMergeEv]
      · intro hcontra
        exact absurd hcontra (by simp)
      · intro hrf
        rw [hr] at hrf
        exact absurd hrf (by simp)
    · have hrf : env.runOk (merge_videos_with_music info env.fsExists
          concat_list_path (some m) OUTPUT_PATH true) = false := by
        simpa using hr
      have hres : transcodePath env info videos majority m
          = ((transcodeAll env info majority env.cache0 videos).2.1
              ++ [Ev.merge true], Outcome.mergeFailed) := by
        simp only [transcodePath, if_neg hs, create_concatenation_list]
        rw [if_neg hr]
      rw [hres]
      refine ⟨?_, ?_, ?_, ?_⟩
      · rw [List.countP_append, hta.1]
        simp [List.countP_cons, isFastMergeEv]
      · rw [List.countP_append, hta.2]
        simp [List.countP_cons, isHwMergeEv]
      · intro _
        refine ⟨hrf, ?_⟩
        simp [List.getLast?_append]
      · intro _
        simp

/-- C8: when the fast path is taken (compatible inputs) and its
stream-copy merge fails, exactly one fallback happens: the run moves to
the transcode path, the stream-copy merge is never re-attempted, the
hardware merge is attempted at most once, a transcode-path merge failure
ends the run as failed with the hardware merge as the last invocation,
and no success is possible after a failed hardware merge. -/
theorem orchestrator_single_fallback (env : Env)
    (hv : discoveredVideos env ≠ [])
    (hm : discoveredMusic env ≠ [])
    (hc : (find_majority_frame_rate (probeOf env)
      (discoveredVideos env)).1 = true)
    (hf : env.runOk (fastCmd env) = false) :
    (mainRun env).1.countP isFastMergeEv = 1 ∧
    (mainRun env).1.countP isHwMergeEv ≤ 1 ∧
    ((mainRun env).2 = Outcome.mergeFailed →
      env.runOk (hwCmd env) = false ∧
      (mainRun env).1.getLast? = some (Ev.merge true)) ∧
    (env.runOk (hwCmd env) = false → (mainRun env).2 ≠ Outcome.ok) := by
  obtain ⟨m, rest, hmeq⟩ : ∃ m rest, discoveredMusic env = m :: rest := by
    cases hd : discoveredMusic env with
    | nil => exact absurd hd hm
    | cons a l => exact ⟨a, l, rfl⟩
  simp only [fastCmd, hmeq, List.headD_cons] at hf
  have hmain : mainRun env
      = (Ev.merge false :: (transcodePath env (probeOf env)
            (discoveredVideos env)
            (find_majority_frame_rate (probeOf env)
              (discoveredVideos env)).2 m).1,
         (transcodePath env (probeOf env) (discoveredVideos env)
            (find_majority_frame_rate (probeOf env)
              (discoveredVideos env)).2 m).2) := by
    simp only [mainRun, if_neg hv, hmeq, create_concatenation_list, hc,
      if_pos rfl, hf]
    simp
  have htp := transcodePath_spec env (probeOf env) (discoveredVideos env)
    (find_majority_frame_rate (probeOf env) (discoveredVideos env)).2 m
  have hhw : merge_videos_with_music (probeOf env) env.fsExists
      concat_list_path (some m) OUTPUT_PATH true = hwCmd env := by
    simp [hwCmd, hmeq]
  rw [hmain]
  refine ⟨?_, ?_, ?_, ?_⟩
  · rw [List.countP_cons]
    rw [htp.1]
    simp [isFastMergeEv]
  · rw [List.countP_cons]
    have h1 := htp.2.1
    simp only [isHwMergeEv]
    simpa [isHwMergeEv] using h1
  · intro hfail
    have h := htp.2.2.1 hfail
    refine ⟨by rw [← hhw]; exact h.1, ?_⟩
    exact getLast_cons_of_getLast _ _ _ h.2
  · intro hrw
    have hrw' : env.runOk (merge_videos_with_music (probeOf env)
        env.fsExists concat_list_path (some m) OUTPUT_PATH true) = false := by
      rw [hhw]; exact hrw
    exact htp.2.2.2 hrw'

/-- A run environment for witnesses: two 30 fps root videos, one music
file, an empty transcode cache, and an external tool that succeeds
exactly on commands carrying the hardware encoder token. -/
def env8 : Env :=
  { probe := fun _ =>
      ProbeOutcome.ran 0 (Stdout.parsed
        { streams := [{ codec_type := some "video",
                        codec_name := some "h264",
                        width := some 1920, height := some 1080,
                        r_frame_rate := some 30 }],
          format_duration := some 30 }),
    fsExists := fun _ => true,
    cache0 := [],
    runOk := fun c => decide (Tok.s "h264_nvenc" ∈ c),
    rootFiles := ["a.mp4", "b.mp4"],
    musicFiles := ["song.mp3"] }

/-- Witness for C8: in env8 the stream-copy merge fails and the hardware
merge succeeds, so the fallback happens exactly once. -/
theorem orchestrator_single_fallback_witness :
    (mainRun env8).1.countP isFastMergeEv = 1 ∧
    (mainRun env8).1.countP isHwMergeEv ≤ 1 ∧
    ((mainRun env8).2 = Outcome.mergeFailed →
      env8.runOk (hwCmd env8) = false ∧
      (mainRun env8).1.getLast? = some (Ev.merge true)) ∧
    (env8.runOk (hwCmd env8) = false → (mainRun env8).2 ≠ Outcome.ok) :=
  orchestrator_single_fallback env8 (by decide) (by decide) (by decide)
    (by decide)

theorem mem_insertSorted (a x : String) (l : List String) :
    x ∈ insertSorted a l ↔ x = a ∨ x ∈ l := by
  induction l with
  | nil => simp [insertSorted]
  | cons b t ih =>
    cases h : compare a b with
    | lt => simp [insertSorted, h, List.mem_cons]
    | eq => simp [insertSorted, h, List.mem_cons]
    | gt =>
      simp [insertSorted, h, List.mem_cons, ih]
      tauto

theorem mem_sortStr (x : String) (l : List String) :
    x ∈ sortStr l ↔ x ∈ l := by
  induction l with
  | nil => simp [sortStr]
  | cons a t ih => simp [sortStr, mem_insertSorted, ih, List.mem_cons]

/-- C10: ".m4a" belongs to both extension tuples, so a root file whose
lowercased suffix is .m4a and whose name is not excluded is discovered as
a video, while a Music-directory file with the same suffix is discovered
as a music candidate. -/
theorem m4a_video_and_audio_extension :
    ".m4a" ∈ VIDEO_EXTENSIONS ∧ ".m4a" ∈ AUDIO_EXTENSIONS ∧
    (∀ (env : Env) (name : String),
      toLowerPy (pathSuffix name) = ".m4a" → name ∉ excluded_names →
      name ∈ env.rootFiles → name ∈ discoveredVideos env) ∧
    (∀ (env : Env) (name : String),
      toLowerPy (pathSuffix name) = ".m4a" → name ∈ env.musicFiles →
      name ∈ discoveredMusic env) := by
  refine ⟨by decide, by decide, ?_, ?_⟩
  · intro env name hsuf hexcl hmem
    unfold discoveredVideos
    rw [mem_sortStr]
    refine List.mem_filter.mpr ⟨hmem, ?_⟩
    simp only [Bool.and_eq_true, decide_eq_true_eq]
    refine ⟨?_, hexcl⟩
    rw [hsuf]
    decide
  · intro env name hsuf hmem
    unfold discoveredMusic
    refine List.mem_filter.mpr ⟨hmem, ?_⟩
    simp only [decide_eq_true_eq]
    rw [hsuf]
    decide

/-- A discovery environment for the C10 witness: one .m4a file in the
project root and one in the Music directory. -/
def envM4a : Env :=
  { probe := fun _ => ProbeOutcome.exn, fsExists := fun _ => true,
    cache0 := [], runOk := fun _ => true,
    rootFiles := ["clip.m4a"], musicFiles := ["song.m4a"] }

/-- Witness for C10 on concrete .m4a files. -/
theorem m4a_video_and_audio_extension_witness :
    "clip.m4a" ∈ discoveredVideos envM4a ∧
    "song.m4a" ∈ discoveredMusic envM4a :=
  ⟨m4a_video_and_audio_extension.2.2.1 envM4a "clip.m4a" (by decide)
      (by decide) (by decide),
   m4a_video_and_audio_extension.2.2.2 envM4a "song.m4a" (by decide)
      (by decide)⟩

end VideoConcat
